import Mathlib

/-!
A shallow embedding of `src/players/player_10/tools/statistics.py`
(the statistics layer of the Conversations repository), together with
proofs about the behaviour of its aggregation functions.

Modelling conventions, used consistently below:

* Python scalar values are modelled by `PyVal`: `none` is Python `None`,
  `num q` is an int/float whose exact value is the rational `q`
  (IEEE-754 rounding is not modelled; every statement below is about
  the structure of the computation, not about rounding),
  `dict` models a `Mapping`, `obj` models an object exposing its fields
  as attributes, and `pylist` models any other container
  (non-mapping, without the attributes we look up).
* A raised Python exception is modelled by `Except.error` with a message
  describing the exception; code that cannot raise stays total.
* `pandas.DataFrame`s are modelled as lists of association-list rows;
  a missing key plays the role of a `NaN`/null cell.  (pandas raises a
  `KeyError` when a requested column is absent from the whole frame; in
  this model such a column simply yields only null cells.  None of the
  proved statements depends on that distinction.)
-/

inductive PyVal where
  | none
  | num (q : ℚ)
  | dict (entries : List (String × PyVal))
  | obj (fields : List (String × PyVal))
  | pylist (xs : List PyVal)

/-- Python truthiness of the modelled values: `None`, `0`, and empty
containers are falsy; a plain object is always truthy. -/
def PyVal.truthy : PyVal → Bool
  | .none => false
  | .num q => q != 0
  | .dict e => !e.isEmpty
  | .obj _ => true
  | .pylist xs => !xs.isEmpty

/-- `getattr(source, attr, default)`: attribute access succeeds only on
objects; mappings do not expose their keys as attributes. -/
def pyGetattr (source : PyVal) (attr : String) (default : PyVal := .none) : PyVal :=
  match source with
  | .obj f => (List.lookup attr f).getD default
  | _ => default

/-- `_get(source, attr, default)` (statistics.py lines 46-49): `Mapping.get`
on mappings, `getattr` with a default otherwise. -/
def pyGet (source : PyVal) (attr : String) (default : PyVal := .none) : PyVal :=
  match source with
  | .dict e => (List.lookup attr e).getD default
  | .obj f => (List.lookup attr f).getD default
  | _ => default

/-- `_config_value(config, attr, default)` (statistics.py lines 35-43):
`getattr` when the attribute exists, `Mapping.get` on mappings, otherwise
the default.  On the modelled values this is a field lookup on `obj` or
`dict` and the default everywhere else. -/
def configValue (config : PyVal) (attr : String) (default : PyVal := .none) : PyVal :=
  match config with
  | .dict e => (List.lookup attr e).getD default
  | .obj f => (List.lookup attr f).getD default
  | _ => default

/-- `float(v)`: succeeds exactly on numbers; `None`, mappings, objects and
other containers raise a `TypeError`.  (Numeric strings are outside the
model; the repository never feeds strings to these conversions.) -/
def pyFloat : PyVal → Except String ℚ
  | .num q => .ok q
  | _ => .error "TypeError: float() argument must be a number"

/-- A flattened record: the Python `dict` row built by
`results_to_records`, as an association list in insertion order.  The
base keys never start with `shared_`, and the dynamic breakdown keys all
do, so first-match lookup agrees with Python dict semantics. -/
abbrev PyRow := List (String × PyVal)

/-- The fixed part of the row dict of `results_to_records` (statistics.py
lines 66-93), with the already-converted `early_termination` value
plugged in; every other entry is the raw `_get`/`_config_value`
extraction. -/
def baseRowOf (result : PyVal) (early : ℚ) : PyRow :=
  let config := pyGet result "config"
  [
    ("altruism_prob", configValue config "altruism_prob"),
    ("tau_margin", configValue config "tau_margin"),
    ("epsilon_fresh", configValue config "epsilon_fresh"),
    ("epsilon_mono", configValue config "epsilon_mono"),
    ("subjects", configValue config "subjects"),
    ("memory_size", configValue config "memory_size"),
    ("conversation_length_cfg", configValue config "conversation_length"),
    ("seed", configValue config "seed"),
    ("min_samples_pid", configValue config "min_samples_pid"),
    ("ewma_alpha", configValue config "ewma_alpha"),
    ("importance_weight", configValue config "importance_weight"),
    ("coherence_weight", configValue config "coherence_weight"),
    ("freshness_weight", configValue config "freshness_weight"),
    ("monotony_weight", configValue config "monotony_weight"),
    ("total_score", pyGet result "total_score"),
    ("player10_score", pyGet result "player10_total_mean"),
    ("player10_individual", pyGet result "player10_individual_mean"),
    ("player10_rank", pyGet result "player10_rank_mean"),
    ("player10_gap_to_best", pyGet result "player10_gap_to_best"),
    ("player10_instances", pyGet result "player10_instances"),
    ("best_total_score", pyGet result "best_total_score"),
    ("conversation_length", pyGet result "conversation_length"),
    ("early_termination", .num early),
    ("pause_count", pyGet result "pause_count"),
    ("unique_items_used", pyGet result "unique_items_used"),
    ("execution_time", pyGet result "execution_time")]

/-- The `shared_`-prefixed entries copied out of the breakdown mapping by
the loop of lines 96-99, skipping the reserved `total` key. -/
def sharedEntries (entries : List (String × PyVal)) : PyRow :=
  entries.filterMap fun cv =>
    if cv.1 = "total" then Option.none else some ("shared_" ++ cv.1, cv.2)

/-- Lines 95-99: `score_breakdown = _get(result, 'score_breakdown', {}) or
{}` followed by `.items()`; a truthy non-mapping value raises an
`AttributeError` at the `.items()` call. -/
def breakdownOf (result : PyVal) : Except String PyRow :=
  let sbRaw := pyGet result "score_breakdown" (.dict [])
  match (if sbRaw.truthy then sbRaw else .dict []) with
  | .dict entries => Except.ok (sharedEntries entries)
  | _ => Except.error "AttributeError: object has no attribute items"

/-- Lines 101-109: the `length_utilization` entry appended to the row, as
a (possibly empty) tail.  The key is only inserted inside the
`if conversation_length_cfg and conversation_length` branch, reading both
lengths back from the row dict; the repeated inner guard of the source is
kept verbatim (it is always true there, so the stored value is never the
`None` of its else arm).  The numerator `float(conversation_length)` is
evaluated before the denominator. -/
def utilTail (row1 : PyRow) : Except String PyRow :=
  let clcfg := (List.lookup "conversation_length_cfg" row1).getD .none
  let cl := (List.lookup "conversation_length" row1).getD .none
  if clcfg.truthy && cl.truthy then
    match pyFloat cl with
    | .error e => .error e
    | .ok n =>
      match pyFloat clcfg with
      | .error e => .error e
      | .ok d =>
        .ok [("length_utilization", if clcfg.truthy then .num (n / d) else .none)]
  else
    .ok []

/-- The body of the `for result in results` loop of `results_to_records`
(statistics.py lines 64-110): build the fixed row (converting
`early_termination` with `float(...)` while the dict literal is built,
hence before the breakdown loop), copy the `score_breakdown` components
under `shared_` keys, and append the derived `length_utilization` entry
when both lengths are truthy.  The three `float(...)` calls and the
`.items()` call on a truthy non-mapping `score_breakdown` are the only
places the loop body can raise. -/
def resultToRow (result : PyVal) : Except String PyRow :=
  match pyFloat (pyGet result "early_termination" (.num 0)) with
  | .error e => .error e
  | .ok early =>
    match breakdownOf result with
    | .error e => .error e
    | .ok shared =>
      match utilTail (baseRowOf result early ++ shared) with
      | .error e => .error e
      | .ok tail => .ok (baseRowOf result early ++ shared ++ tail)

/-- `results_to_records(results)` (statistics.py lines 52-111): one row per
result, in order; an exception in any loop body aborts the whole call. -/
def results_to_records : List PyVal → Except String (List PyRow)
  | [] => .ok []
  | r :: rest =>
    match resultToRow r with
    | .error e => .error e
    | .ok row =>
      match results_to_records rest with
      | .error e => .error e
      | .ok rows => .ok (row :: rows)

/-! ### Numeric helpers shared by the aggregation functions -/

/-- Arithmetic mean; only ever applied to nonempty lists below. -/
def qmean (l : List ℚ) : ℚ := l.sum / l.length

/-- Ascending sort of rationals (models `sorted(...)` / `np.sort`). -/
def sortQ (l : List ℚ) : List ℚ := l.insertionSort (· ≤ ·)

/-- Sorted distinct values, ascending: models `sorted(set(...))`,
`pandas.unique` after sorting, and the sorted group keys of `groupby`. -/
def sortedDistinct (l : List ℚ) : List ℚ := (sortQ l).dedup

/-- Lexicographic comparison of rational tuples (Python tuple `<=`),
used for multi-column group keys. -/
def lexLeB : List ℚ → List ℚ → Bool
  | [], _ => true
  | _ :: _, [] => false
  | a :: as, b :: bs => if a < b then true else if b < a then false else lexLeB as bs

/-- The lexicographic order as a relation, for sorting keys. -/
def keyLe (a b : List ℚ) : Prop := lexLeB a b = true

instance : DecidableRel keyLe := fun a b => by unfold keyLe; infer_instance

/-- Sorted distinct multi-column keys, lexicographically ascending. -/
def sortedDistinctKeys (l : List (List ℚ)) : List (List ℚ) :=
  (l.insertionSort keyLe).dedup

/-- The numeric value of a cell: `some q` for a number, `none` for an
absent key, a `None`, or any non-numeric cell (exactly the cells that
`dropna` discards or that never entered the numeric column). -/
def numAt (row : PyRow) (col : String) : Option ℚ :=
  match List.lookup col row with
  | some (.num q) => some q
  | _ => Option.none

/-- The group key of a row under `group_cols`: `none` when any key column
is null (pandas `groupby` drops such rows). -/
def keyOf (row : PyRow) (cols : List String) : Option (List ℚ) :=
  cols.mapM (numAt row)

/-- `df.groupby(list(group_cols))`: the sorted distinct keys, each paired
with its rows in frame order (`groupby` sorts keys and keeps row order). -/
def groupsOf (df : List PyRow) (cols : List String) : List (List ℚ × List PyRow) :=
  (sortedDistinctKeys (df.filterMap (keyOf · cols))).map fun k =>
    (k, df.filter fun r => decide (keyOf r cols = some k))

/-- `group[metric].dropna().to_numpy()`: the non-null metric cells of a
group, in row order. -/
def valuesOf (rows : List PyRow) (metric : String) : List ℚ :=
  rows.filterMap (numAt · metric)

/-! ### Bootstrap estimator (`bootstrap_ci`, statistics.py lines 150-189) -/

/-- One output row of `bootstrap_ci`: the group-key values together with
`mean`, `ci_low`, `ci_high` and `n`. -/
structure BootRow where
  key : List ℚ
  mean : ℚ
  ci_low : ℚ
  ci_high : ℚ
  n : Nat
deriving DecidableEq

/-- Modelled from the spec: `np.random.default_rng(seed)` — NumPy's PCG64
bit generator is external to this repository.  The spec requires only a
deterministic random source derived from the integer seed; this stand-in
stream provides exactly that (the claims below use no distributional
property of the stream). -/
def default_rng (seed : Int) : Nat → Nat :=
  fun k => (seed.natAbs + (k + 1) * 2654435761) % 4294967296

/-- `rng.choice(values, size=(iterations, n), replace=True).mean(axis=1)`:
`iterations` resample means, each over `n` draws with replacement taken
from the deterministic stream `g` starting at offset `off`. -/
def bootMeans (g : Nat → Nat) (off iters n : Nat) (values : List ℚ) : List ℚ :=
  (List.range iters).map fun i =>
    qmean ((List.range n).map fun j => values.getD (g (off + i * n + j) % n) 0)

/-- `np.quantile(xs, q)` with the default linear interpolation on the
ascending sort of `xs`. -/
def npQuantile (xs : List ℚ) (q : ℚ) : ℚ :=
  let s := sortQ xs
  let m := s.length
  let h : ℚ := q * ((m : ℚ) - 1)
  let lo : Nat := (⌊h⌋).toNat
  let frac : ℚ := h - (lo : ℚ)
  s.getD lo 0 + frac * (s.getD (min (lo + 1) (m - 1)) 0 - s.getD lo 0)

/-- The grouped loop of `bootstrap_ci` (lines 171-188): groups with no
valid observation are skipped (`continue`); every processed group advances
the random stream by `iterations * n` draws. -/
def bsRowsFrom (g : Nat → Nat) (iters : Nat) (alpha : ℚ) :
    Nat → List (List ℚ × List ℚ) → List BootRow
  | _, [] => []
  | off, (k, values) :: rest =>
    if values.isEmpty then bsRowsFrom g iters alpha off rest
    else
      let n := values.length
      let boot := bootMeans g off iters n values
      { key := k, mean := qmean values,
        ci_low := npQuantile boot alpha, ci_high := npQuantile boot (1 - alpha),
        n := n } :: bsRowsFrom g iters alpha (off + iters * n) rest

/-- `bootstrap_ci(df, group_cols, metric, iterations=…, confidence=…,
random_state=…)` (statistics.py lines 150-189).  The confidence guard of
line 163 precedes everything else; `df.groupby([])` raises a
`ValueError`; and the final column selection of line 189 raises a
`KeyError` when no group produced a row, because the empty `DataFrame`
has no columns.  (A metric column absent from the whole frame raises a
`KeyError` at line 172 in pandas; the row model reaches the same raising
outcome through the empty assembly, see the module comment.) -/
def bootstrap_ci (df : List PyRow) (group_cols : List String) (metric : String)
    (iterations : Nat) (confidence : ℚ) (g : Nat → Nat) :
    Except String (List BootRow) :=
  if ¬ (0 < confidence ∧ confidence < 1) then
    Except.error "confidence must be between 0 and 1"
  else if group_cols.isEmpty then
    Except.error "ValueError: No group keys passed"
  else
    let alpha := (1 - confidence) / 2
    let rows := bsRowsFrom g iterations alpha 0
      ((groupsOf df group_cols).map fun gr => (gr.1, valuesOf gr.2 metric))
    if rows.isEmpty then
      Except.error "KeyError: result column selection on empty frame"
    else
      Except.ok rows

/-! ### Pairwise contrast engine (`pairwise_deltas`, statistics.py lines 192-226) -/

/-- One output row of `pairwise_deltas`.  `cohens_d = some (delta, p)`
denotes the real number `delta / Real.sqrt p` with `p > 0` the squared
pooled standard deviation (the square root of a positive rational is
irrational in general, so the pair is the exact, information-preserving
representation); `cohens_d = none` denotes the `np.nan` of line 215. -/
structure DeltaRow where
  a : ℚ
  b : ℚ
  delta_mean : ℚ
  cohens_d : Option (ℚ × ℚ)
  n_a : Nat
  n_b : Nat
deriving DecidableEq

/-- `x.var(ddof=1)` of pandas: the Bessel-corrected sample variance, `NaN`
(here `none`) on fewer than two observations. -/
def svar (l : List ℚ) : Option ℚ :=
  if l.length ≤ 1 then Option.none
  else some (((l.map fun x => (x - qmean l) * (x - qmean l)).sum) / ((l.length : ℚ) - 1))

/-- The squared pooled standard deviation of lines 211-214.  When either
group has a single observation its `var(ddof=1)` is `NaN`, and `NaN`
poisons the whole expression even under a zero coefficient, so the result
is `none` exactly when either variance is `NaN`. -/
def pooledSq (x y : List ℚ) : Option ℚ :=
  match svar x, svar y with
  | some vx, some vy =>
      some ((vx * ((x.length : ℚ) - 1) + vy * ((y.length : ℚ) - 1)) /
        ((x.length : ℚ) + (y.length : ℚ) - 2))
  | _, _ => Option.none

/-- Cohen's d of line 215: `float(delta / pooled) if pooled > 0 else
np.nan`.  `pooled = sqrt(pooledSq)` is positive iff `pooledSq` is a
positive number (a `NaN` pooled value compares false), so the defined
case is represented by the pair `(delta, pooledSq)` and `NaN` by `none`. -/
def cohensD (delta : ℚ) (x y : List ℚ) : Option (ℚ × ℚ) :=
  match pooledSq x y with
  | some p => if 0 < p then some (delta, p) else Option.none
  | _ => Option.none

/-- The non-null metric observations at level `v` of `group_col`:
`df[df[group_col] == v][metric].dropna()`. -/
def levelVals (df : List PyRow) (group_col : String) (v : ℚ) (metric : String) : List ℚ :=
  (df.filter fun r => decide (numAt r group_col = some v)).filterMap (numAt · metric)

/-- The contrast row of lines 210-225 for levels `a < b` with observation
lists `x` and `y`. -/
def mkDeltaRow (a b : ℚ) (x y : List ℚ) : DeltaRow :=
  { a := a, b := b, delta_mean := qmean y - qmean x,
    cohens_d := cohensD (qmean y - qmean x) x y,
    n_a := x.length, n_b := y.length }

/-- The ordered pairs `(levels[i], levels[j])` with `i < j`, as produced
by the `enumerate` / `levels[i + 1:]` double loop of lines 202-209. -/
def levelPairs : List ℚ → List (ℚ × ℚ)
  | [] => []
  | a :: rest => (rest.map fun b => (a, b)) ++ levelPairs rest

/-- `pairwise_deltas(df, group_col=…, metric=…)` (statistics.py lines
192-226).  `levels` is the sorted distinct non-null content of the
contrast column; a pair contributes a row exactly when both of its
levels have a non-null metric observation: the outer `continue` of line
205 drops every pair whose first level is empty, the inner `continue` of
line 209 drops the rest, and neither condition depends on the other
level, so the double loop is the filter below over the ordered pairs. -/
def mkContrast (df : List PyRow) (group_col metric : String) (ab : ℚ × ℚ) :
    Option DeltaRow :=
  let x := levelVals df group_col ab.1 metric
  let y := levelVals df group_col ab.2 metric
  if x.isEmpty || y.isEmpty then Option.none
  else some (mkDeltaRow ab.1 ab.2 x y)

def pairwise_deltas (df : List PyRow) (group_col metric : String) : List DeltaRow :=
  (levelPairs (sortedDistinct (df.filterMap (numAt · group_col)))).filterMap
    (mkContrast df group_col metric)

/-! ### Grid builder (`heatmap_matrix`, statistics.py lines 229-264) -/

/-- The three extracted coordinates of a result record in
`heatmap_matrix`: row and column come from the nested config through
`_config_value`, the metric from a plain `getattr` on the result (the
re-read of lines 245-246 uses the same access and is a no-op).  A
coordinate is `none` when the attribute is missing or `None`; the
`float()` of line 249 and the `sorted()` of lines 254-255 confine the
running code to numeric coordinates, which is the domain modelled here. -/
def hmRow (result : PyVal) (row_attr : String) : Option ℚ :=
  match configValue (pyGetattr result "config") row_attr with
  | .num q => some q
  | _ => Option.none

def hmCol (result : PyVal) (col_attr : String) : Option ℚ :=
  match configValue (pyGetattr result "config") col_attr with
  | .num q => some q
  | _ => Option.none

def hmMetric (result : PyVal) (metric : String) : Option ℚ :=
  match pyGetattr result metric with
  | .num q => some q
  | _ => Option.none

/-- Whether a result contributes to the grid: line 247 skips a record as
soon as any of the three coordinates is `None`. -/
def hmValid (r : PyVal) (row_attr col_attr metric : String) : Bool :=
  (hmRow r row_attr).isSome && (hmCol r col_attr).isSome && (hmMetric r metric).isSome

/-- The per-cell bucket: the metric values appended at line 249, in
record order, of exactly the contributing records whose coordinates match
the cell.  (The nested `defaultdict` accumulation of the source stores
the same list per `(row, col)` pair; it is computed here directly.) -/
def hmBucket (results : List PyVal) (row_attr col_attr metric : String)
    (r c : ℚ) : List ℚ :=
  results.filterMap fun res =>
    if hmRow res row_attr = some r ∧ hmCol res col_attr = some c then
      hmMetric res metric
    else Option.none

/-- `heatmap_matrix(results, row_attr=…, col_attr=…, metric=…)`
(statistics.py lines 229-264): `none` when no record contributes (then
both value sets are empty and line 252 returns `None`); otherwise the
sorted distinct row values, sorted distinct column values, and the
row-major grid whose cell is the bucket mean, or null for an empty
bucket (line 261). -/
def heatmap_matrix (results : List PyVal) (row_attr col_attr metric : String) :
    Option (List ℚ × List ℚ × List (List (Option ℚ))) :=
  let valid := results.filter fun r => hmValid r row_attr col_attr metric
  if valid.isEmpty then Option.none
  else
    let row_order := sortedDistinct (valid.filterMap fun r => hmRow r row_attr)
    let col_order := sortedDistinct (valid.filterMap fun r => hmCol r col_attr)
    let grid := row_order.map fun rv => col_order.map fun cv =>
      let bucket := hmBucket results row_attr col_attr metric rv cv
      if bucket.isEmpty then Option.none else some (qmean bucket)
    some (row_order, col_order, grid)

/-! ### Pareto point builder (`pareto_points`, statistics.py lines 320-373) -/

structure ParetoPoint where
  altruism : ℚ
  tau : ℚ
  fresh : ℚ
  mono : ℚ
  total : ℚ
  player10 : ℚ
  early : Option ℚ
  runs : Nat
deriving DecidableEq

/-- The four key attributes of the grouping tuple (lines 334-339). -/
def ppKeyAttrs : List String :=
  ["altruism_prob", "tau_margin", "epsilon_fresh", "epsilon_mono"]

/-- One numeric component of the grouping tuple, read from the nested
config. -/
def ppConfigNum (result : PyVal) (a : String) : Option ℚ :=
  match configValue (pyGetattr result "config") a with
  | .num q => some q
  | _ => Option.none

/-- The 4-tuple key of a result: `none` as soon as one component is null
(line 340 skips such records).  The key components must be orderable and
hashable for the source's dict grouping and final `sorted`; the numeric
domain is modelled. -/
def ppKey (result : PyVal) : Option (List ℚ) :=
  ppKeyAttrs.mapM (ppConfigNum result)

/-- A metric observation of a result (lines 342-353): `getattr` with
default `None`, skipped when `None`; a non-null value is converted with
`float(...)` (hence numeric in the running code). -/
def ppMetric (result : PyVal) (attr : String) : Option ℚ :=
  match pyGetattr result attr with
  | .num q => some q
  | _ => Option.none

/-- The non-null observations of `attr` inside the group keyed `k`, in
record order: exactly the values whose sum and count the source
accumulates into `groups[key]`. -/
def ppVals (results : List PyVal) (k : List ℚ) (attr : String) : List ℚ :=
  (results.filter fun r => decide (ppKey r = some k)).filterMap (ppMetric · attr)

/-- The point emitted for one distinct key (lines 354-369): skipped when
the key lacks a collective (`total_score`) or an individual
(`player10_individual_mean`) observation (line 356); the
early-termination mean is `None` on zero coverage (line 366); `runs` is
the collective count (line 367). -/
def mkParetoPoint (results : List PyVal) (k : List ℚ) : Option ParetoPoint :=
  match k with
  | [al, ta, fr, mo] =>
    let tot := ppVals results k "total_score"
    let p10 := ppVals results k "player10_individual_mean"
    let early := ppVals results k "early_termination"
    if tot.isEmpty || p10.isEmpty then Option.none
    else some { altruism := al, tau := ta, fresh := fr, mono := mo,
                total := qmean tot, player10 := qmean p10,
                early := if early.isEmpty then Option.none else some (qmean early),
                runs := tot.length }
  | _ => Option.none

/-- `pareto_points(results)` (statistics.py lines 320-373).  The final
`sorted` of lines 370-373 orders the points by the tuple key, so the
accumulation order of the group dict is irrelevant and the points are
built directly over the sorted distinct keys. -/
def pareto_points (results : List PyVal) : List ParetoPoint :=
  (sortedDistinctKeys (results.filterMap ppKey)).filterMap (mkParetoPoint results)

/-! ### Stability curve builder (`seed_stability_curves`, lines 376-392) -/

/-- Row order of `df.sort_values(order_col)`: ascending by the order
column, null keys last (the pandas default `na_position`).  pandas'
default quicksort is not stable; the stable sort used here coincides with
it whenever the order keys are distinct, and no statement below depends
on the tie order. -/
def orderKeyLe (a b : Option ℚ) : Bool :=
  match a, b with
  | Option.none, Option.none => true
  | Option.none, some _ => false
  | some _, Option.none => true
  | some x, some y => decide (x ≤ y)

def sortByOrder (df : List PyRow) (order_col : String) : List PyRow :=
  df.insertionSort fun r s => orderKeyLe (numAt r order_col) (numAt s order_col) = true

/-- `list(values.expanding().mean())`: position `k` (0-based) is the mean
of the first `k + 1` values. -/
def expandingMeans (l : List ℚ) : List ℚ :=
  (List.range l.length).map fun k => qmean (l.take (k + 1))

/-- `group[metric].dropna()` for the group at level `lvl` of the sorted
frame: the non-null metric cells, in order ascending by the order column
(`groupby` preserves the frame order within each group). -/
def stabilityVals (df : List PyRow) (group_col : String) (lvl : ℚ)
    (metric order_col : String) : List ℚ :=
  ((sortByOrder df order_col).filter fun r => decide (numAt r group_col = some lvl)).filterMap
    (numAt · metric)

/-- `seed_stability_curves(df, group_col=…, metric=…, order_col=…)`
(statistics.py lines 376-392): one curve per level with at least one
valid observation (line 389 skips the rest), keyed by the sorted distinct
non-null levels (`groupby` sorts its keys, and the insertion order of the
`curves` dict follows it). -/
def seed_stability_curves (df : List PyRow) (group_col metric order_col : String) :
    List (ℚ × List ℚ) :=
  let levels := sortedDistinct (df.filterMap (numAt · group_col))
  levels.filterMap fun lvl =>
    let values := stabilityVals df group_col lvl metric order_col
    if values.isEmpty then Option.none
    else some (lvl, expandingMeans values)

/-! ### Lemmas about the shared helpers -/

theorem mem_sortedDistinct {a : ℚ} {l : List ℚ} : a ∈ sortedDistinct l ↔ a ∈ l := by
  unfold sortedDistinct sortQ
  rw [List.mem_dedup, List.mem_insertionSort]

theorem sortedDistinct_nodup (l : List ℚ) : (sortedDistinct l).Nodup :=
  List.nodup_dedup _

theorem sortedDistinct_sorted (l : List ℚ) : (sortedDistinct l).Sorted (· < ·) := by
  have hle : (sortedDistinct l).Sorted (· ≤ ·) :=
    List.Pairwise.sublist (List.dedup_sublist _) (List.sorted_insertionSort _ _)
  exact hle.lt_of_le (sortedDistinct_nodup l)

theorem lexLeB_total : ∀ a b : List ℚ, lexLeB a b = true ∨ lexLeB b a = true := by
  intro a
  induction a with
  | nil => intro b; left; rfl
  | cons x as ih =>
    intro b
    cases b with
    | nil => right; rfl
    | cons y bs =>
      rcases lt_trichotomy x y with h | h | h
      · left; simp [lexLeB, h]
      · subst h
        rcases ih bs with h2 | h2
        · left; simp [lexLeB, h2]
        · right; simp [lexLeB, h2]
      · right; simp [lexLeB, h]

theorem lexLeB_trans :
    ∀ a b c : List ℚ, lexLeB a b = true → lexLeB b c = true → lexLeB a c = true := by
  intro a
  induction a with
  | nil => intro b c _ _; rfl
  | cons x as ih =>
    intro b c hab hbc
    cases b with
    | nil => simp [lexLeB] at hab
    | cons y bs =>
      cases c with
      | nil => simp [lexLeB] at hbc
      | cons z cs =>
        rcases lt_trichotomy x y with hxy | hxy | hxy
        · rcases lt_trichotomy y z with hyz | hyz | hyz
          · simp [lexLeB, hxy.trans hyz]
          · subst hyz; simp [lexLeB, hxy]
          · rw [lexLeB, if_neg (asymm hyz), if_pos hyz] at hbc
            simp at hbc
        · subst hxy
          rw [lexLeB, if_neg (lt_irrefl x), if_neg (lt_irrefl x)] at hab
          rcases lt_trichotomy x z with hxz | hxz | hxz
          · simp [lexLeB, hxz]
          · subst hxz
            rw [lexLeB, if_neg (lt_irrefl x), if_neg (lt_irrefl x)] at hbc ⊢
            exact ih bs cs hab hbc
          · rw [lexLeB, if_neg (asymm hxz), if_pos hxz] at hbc
            simp at hbc
        · rw [lexLeB, if_neg (asymm hxy), if_pos hxy] at hab
          simp at hab

instance : IsTotal (List ℚ) keyLe := ⟨lexLeB_total⟩

instance : IsTrans (List ℚ) keyLe := ⟨lexLeB_trans⟩

theorem mem_sortedDistinctKeys {k : List ℚ} {l : List (List ℚ)} :
    k ∈ sortedDistinctKeys l ↔ k ∈ l := by
  unfold sortedDistinctKeys
  rw [List.mem_dedup, List.mem_insertionSort]

theorem sortedDistinctKeys_nodup (l : List (List ℚ)) : (sortedDistinctKeys l).Nodup :=
  List.nodup_dedup _

theorem sortedDistinctKeys_sorted (l : List (List ℚ)) :
    (sortedDistinctKeys l).Sorted keyLe :=
  List.Pairwise.sublist (List.dedup_sublist _) (List.sorted_insertionSort _ _)

/-- A sorted deduplicated key list is strictly ascending: each key is
lexicographically `≤` and distinct from every later one. -/
theorem sortedDistinctKeys_strict (l : List (List ℚ)) :
    (sortedDistinctKeys l).Pairwise fun a b => keyLe a b ∧ a ≠ b :=
  List.Pairwise.imp₂ (fun _ _ h1 h2 => ⟨h1, h2⟩) (sortedDistinctKeys_sorted l)
    (sortedDistinctKeys_nodup l)

theorem expandingMeans_length (l : List ℚ) : (expandingMeans l).length = l.length := by
  simp [expandingMeans]

theorem expandingMeans_getD (l : List ℚ) (k : Nat) (hk : k < l.length) :
    (expandingMeans l).getD k 0 = qmean (l.take (k + 1)) := by
  unfold expandingMeans
  rw [List.getD_eq_getElem?_getD, List.getElem?_map, List.getElem?_range hk]
  rfl

theorem expandingMeans_getLast (l : List ℚ) (h : l ≠ []) :
    (expandingMeans l).getLast? = some (qmean l) := by
  have hlen : 0 < l.length := List.length_pos.mpr h
  rw [List.getLast?_eq_getElem?, expandingMeans_length]
  unfold expandingMeans
  rw [List.getElem?_map, List.getElem?_range (by omega)]
  have h1 : l.length - 1 + 1 = l.length := by omega
  simp only [Option.map_some']
  rw [h1, List.take_length]

/-- Membership in the ordered level pairs of a strictly sorted list. -/
theorem mem_levelPairs {L : List ℚ} (hs : L.Sorted (· < ·)) {a b : ℚ} :
    (a, b) ∈ levelPairs L ↔ a ∈ L ∧ b ∈ L ∧ a < b := by
  induction L with
  | nil => simp [levelPairs]
  | cons x rest ih =>
    rw [List.sorted_cons] at hs
    obtain ⟨hx, hrest⟩ := hs
    simp only [levelPairs, List.mem_append, List.mem_map, List.mem_cons]
    constructor
    · rintro (⟨b', hb', heq⟩ | h)
      · obtain ⟨rfl, rfl⟩ := Prod.mk.injEq x b' a b ▸ heq
        exact ⟨Or.inl rfl, Or.inr hb', hx _ hb'⟩
      · obtain ⟨ha, hb, hab⟩ := (ih hrest).mp h
        exact ⟨Or.inr ha, Or.inr hb, hab⟩
    · rintro ⟨ha | ha, hb | hb, hab⟩
      · subst ha; subst hb; exact absurd hab (lt_irrefl _)
      · subst ha; exact Or.inl ⟨b, hb, rfl⟩
      · subst hb; exact absurd hab (not_lt.mpr (hx a ha).le)
      · exact Or.inr ((ih hrest).mpr ⟨ha, hb, hab⟩)

/-- Pairwise transfer along a `filterMap` whose partial function preserves
the element as the `key` of its output. -/
theorem pairwise_filterMap_key {α β : Type} (R : α → α → Prop) (F : α → Option β)
    (key : β → α) (hF : ∀ a p, F a = some p → key p = a) :
    ∀ L : List α, L.Pairwise R → (L.filterMap F).Pairwise fun p q => R (key p) (key q) := by
  intro L
  induction L with
  | nil => intro _; simp
  | cons x rest ih =>
    intro hp
    rw [List.pairwise_cons] at hp
    obtain ⟨hx, hrest⟩ := hp
    rw [List.filterMap_cons]
    cases hfx : F x with
    | none => exact ih hrest
    | some p =>
      refine List.Pairwise.cons ?_ (ih hrest)
      intro q hq
      obtain ⟨a, ha, hFa⟩ := List.mem_filterMap.mp hq
      rw [hF x p hfx, hF a q hFa]
      exact hx a ha

/-- The keys of the rows produced by the grouped bootstrap loop are
exactly the keys of the groups with at least one valid observation, in
group order. -/
theorem bsRowsFrom_map_key (g : Nat → Nat) (iters : Nat) (alpha : ℚ) :
    ∀ (off : Nat) (groups : List (List ℚ × List ℚ)),
      (bsRowsFrom g iters alpha off groups).map BootRow.key =
        groups.filterMap fun kv => if kv.2 = [] then Option.none else some kv.1 := by
  intro off groups
  induction groups generalizing off with
  | nil => rfl
  | cons kv rest ih =>
    obtain ⟨k, values⟩ := kv
    rw [bsRowsFrom]
    by_cases hv : values = []
    · subst hv
      simp [ih]
    · rw [if_neg (by simpa [List.isEmpty_iff] using hv)]
      simp [List.filterMap_cons, hv, ih]

/-! ### The claims -/

/-- C1: for every record set, grouping columns, metric, iteration count
and confidence level, two invocations of `bootstrap_ci` with the same
integer seed (and otherwise identical inputs) produce identical output
rows — the random source is a pure function of the seed and the
computation consumes no other source of non-determinism, so the whole
result, including each group's `(mean, ci_low, ci_high, n)`, coincides. -/
theorem bootstrap_ci_deterministic (df : List PyRow) (group_cols : List String)
    (metric : String) (iterations : Nat) (confidence : ℚ) (s1 s2 : Int)
    (h : s1 = s2) :
    bootstrap_ci df group_cols metric iterations confidence (default_rng s1) =
      bootstrap_ci df group_cols metric iterations confidence (default_rng s2) := by
  rw [h]

/-- A concrete two-group frame used to instantiate the bootstrap claims. -/
def sampleDF : List PyRow :=
  [[("g", PyVal.num 1), ("m", PyVal.num 4)],
   [("g", PyVal.num 1), ("m", PyVal.num 6)],
   [("g", PyVal.num 2), ("m", PyVal.num 5)]]

theorem bootstrap_ci_deterministic_witness :
    bootstrap_ci sampleDF ["g"] "m" 3 (19/20) (default_rng 42) =
      bootstrap_ci sampleDF ["g"] "m" 3 (19/20) (default_rng 42) :=
  bootstrap_ci_deterministic sampleDF ["g"] "m" 3 (19/20) 42 42 rfl

/-- C5 counterexample: with the perfectly valid confidence `1/2` and an
empty record set, `bootstrap_ci` still fails — the final column selection
of line 189 raises a `KeyError` because the assembled frame is empty — so
"fails with an error if and only if the confidence parameter does not lie
strictly between 0 and 1" is false in its "only if" direction. -/
theorem bootstrap_ci_fails_despite_valid_confidence :
    (0 < mkRat 1 2 ∧ mkRat 1 2 < 1) ∧
      bootstrap_ci [] ["g"] "m" 1000 (mkRat 1 2) (default_rng 0) =
        Except.error "KeyError: result column selection on empty frame" :=
  ⟨by norm_num, rfl⟩

/-- C5 (amended): `bootstrap_ci` fails with the confidence-validation
error — a fixed message that does not include the offending value — if
and only if the confidence does not lie strictly between 0 and 1; the
guard precedes grouping and resampling, so for an out-of-range confidence
the same error is returned whatever the data (the call is pure, leaving
inputs and previously computed outputs untouched).  With a valid
confidence the call can still fail for a different reason (empty result
assembly, see the C9 theorem), with a different error. -/
theorem bootstrap_ci_confidence_guard (df : List PyRow) (group_cols : List String)
    (metric : String) (iterations : Nat) (confidence : ℚ) (g : Nat → Nat) :
    bootstrap_ci df group_cols metric iterations confidence g =
        Except.error "confidence must be between 0 and 1" ↔
      ¬ (0 < confidence ∧ confidence < 1) := by
  unfold bootstrap_ci
  by_cases hc : 0 < confidence ∧ confidence < 1
  · rw [if_neg (not_not_intro hc)]
    simp only [iff_false, not_not]
    refine iff_of_false ?_ (not_not_intro hc)
    by_cases hg : group_cols.isEmpty
    · rw [if_pos hg]
      simp
    · rw [if_neg hg]
      split
      · simp
      · simp
  · rw [if_pos hc]
    simp [hc]

theorem bootstrap_ci_confidence_guard_witness :
    bootstrap_ci sampleDF ["g"] "m" 3 (5/4) (default_rng 7) =
      Except.error "confidence must be between 0 and 1" :=
  (bootstrap_ci_confidence_guard sampleDF ["g"] "m" 3 (5/4) (default_rng 7)).mpr
    (by norm_num)

/-- C9: with a valid confidence and a non-empty list of grouping columns,
`bootstrap_ci` raises the assembly `KeyError` exactly when every group
has zero non-null metric observations (in particular on an empty record
set), rather than returning an empty table; and when it does return, the
returned rows are exactly the groups with at least one valid observation,
so groups with none are individually omitted. -/
theorem bootstrap_ci_all_groups_empty (df : List PyRow) (group_cols : List String)
    (metric : String) (iterations : Nat) (confidence : ℚ) (g : Nat → Nat)
    (h1 : 0 < confidence) (h2 : confidence < 1) (h3 : group_cols ≠ []) :
    ((∀ gr ∈ groupsOf df group_cols, valuesOf gr.2 metric = []) ↔
        bootstrap_ci df group_cols metric iterations confidence g =
          Except.error "KeyError: result column selection on empty frame") ∧
      ∀ rows, bootstrap_ci df group_cols metric iterations confidence g =
          Except.ok rows →
        rows.map BootRow.key = (groupsOf df group_cols).filterMap fun gr =>
          if valuesOf gr.2 metric = [] then Option.none else some gr.1 := by
  unfold bootstrap_ci
  rw [if_neg (not_not_intro ⟨h1, h2⟩), if_neg (by simpa [List.isEmpty_iff] using h3)]
  have hkey := bsRowsFrom_map_key g iterations ((1 - confidence) / 2) 0
    ((groupsOf df group_cols).map fun gr => (gr.1, valuesOf gr.2 metric))
  rw [List.filterMap_map] at hkey
  have hempty : bsRowsFrom g iterations ((1 - confidence) / 2) 0
        ((groupsOf df group_cols).map fun gr => (gr.1, valuesOf gr.2 metric)) = [] ↔
      ∀ gr ∈ groupsOf df group_cols, valuesOf gr.2 metric = [] := by
    constructor
    · intro h gr hgr
      have : (groupsOf df group_cols).filterMap
          ((fun kv => if kv.2 = [] then Option.none else some kv.1) ∘
            fun gr => (gr.1, valuesOf gr.2 metric)) = [] := by
        rw [← hkey, h, List.map_nil]
      have h4 := List.filterMap_eq_nil_iff.mp this gr hgr
      by_contra hne
      simp only [Function.comp_apply, if_neg hne] at h4
      exact Option.some_ne_none _ h4
    · intro h
      have : ∀ kv ∈ (groupsOf df group_cols).map
          fun gr => (gr.1, valuesOf gr.2 metric), kv.2 = [] := by
        intro kv hkv
        obtain ⟨gr, hgr, rfl⟩ := List.mem_map.mp hkv
        exact h gr hgr
      cases hR : bsRowsFrom g iterations ((1 - confidence) / 2) 0
          ((groupsOf df group_cols).map fun gr => (gr.1, valuesOf gr.2 metric)) with
      | nil => rfl
      | cons r rest =>
        exfalso
        have hmem : r.key ∈ (groupsOf df group_cols).filterMap
            ((fun kv => if kv.2 = [] then Option.none else some kv.1) ∘
              fun gr => (gr.1, valuesOf gr.2 metric)) := by
          rw [← hkey, hR]
          exact List.mem_map_of_mem _ (List.mem_cons_self r rest)
        obtain ⟨gr, hgr, hsome⟩ := List.mem_filterMap.mp hmem
        rw [Function.comp_apply, if_pos (h gr hgr)] at hsome
        exact Option.noConfusion hsome
  constructor
  · constructor
    · intro h
      rw [if_pos (List.isEmpty_iff.mpr (hempty.mpr h))]
    · intro h
      by_cases hR : bsRowsFrom g iterations ((1 - confidence) / 2) 0
          ((groupsOf df group_cols).map fun gr => (gr.1, valuesOf gr.2 metric)) = []
      · exact hempty.mp hR
      · rw [if_neg (by simpa [List.isEmpty_iff] using hR)] at h
        exact absurd h (by simp)
  · intro rows hrows
    by_cases hR : bsRowsFrom g iterations ((1 - confidence) / 2) 0
        ((groupsOf df group_cols).map fun gr => (gr.1, valuesOf gr.2 metric)) = []
    · rw [if_pos (List.isEmpty_iff.mpr hR)] at hrows
      exact absurd hrows (by simp)
    · rw [if_neg (by simpa [List.isEmpty_iff] using hR)] at hrows
      injection hrows with hrows
      rw [← hrows]
      simpa [Function.comp] using hkey

theorem bootstrap_ci_all_groups_empty_witness :
    bootstrap_ci [[("g", PyVal.num 1)]] ["g"] "m" 5 (mkRat 1 2) (default_rng 0) =
      Except.error "KeyError: result column selection on empty frame" :=
  (bootstrap_ci_all_groups_empty [[("g", PyVal.num 1)]] ["g"] "m" 5 (mkRat 1 2)
      (default_rng 0) (by norm_num) (by norm_num) (by decide)).1.mp (by decide)

/-! ### Record normalizer: support lemmas -/

/-- `resultToRow` succeeds exactly when its three fallible stages do, and
then the row is the base row, the shared entries, and the utilization
tail, in that order. -/
theorem resultToRow_ok_iff (result : PyVal) (row : PyRow) :
    resultToRow result = Except.ok row ↔
      ∃ early shared tail,
        pyFloat (pyGet result "early_termination" (.num 0)) = Except.ok early ∧
        breakdownOf result = Except.ok shared ∧
        utilTail (baseRowOf result early ++ shared) = Except.ok tail ∧
        row = baseRowOf result early ++ shared ++ tail := by
  unfold resultToRow
  cases hE : pyFloat (pyGet result "early_termination" (.num 0)) with
  | error e => simp
  | ok early =>
    cases hB : breakdownOf result with
    | error e => simp
    | ok shared =>
      cases hU : utilTail (baseRowOf result early ++ shared) with
      | error e => simp [hU]
      | ok tail => simp [hU, eq_comm]

theorem lu_base (result : PyVal) (early : ℚ) :
    List.lookup "length_utilization" (baseRowOf result early) = Option.none := rfl

theorem clcfg_base (result : PyVal) (early : ℚ) :
    List.lookup "conversation_length_cfg" (baseRowOf result early) =
      some (configValue (pyGet result "config") "conversation_length") := rfl

theorem cl_base (result : PyVal) (early : ℚ) :
    List.lookup "conversation_length" (baseRowOf result early) =
      some (pyGet result "conversation_length") := rfl

theorem et_base (result : PyVal) (early : ℚ) :
    List.lookup "early_termination" (baseRowOf result early) =
      some (PyVal.num early) := rfl

theorem shared_append_head (c : String) : ("shared_" ++ c).data.head? = some 's' := by
  rw [String.data_append]
  rfl

/-- Every dynamic breakdown key starts with the letter of its `shared_`
namespace prefix, which no fixed key queried below does. -/
theorem sharedEntries_keys (entries : List (String × PyVal)) :
    ∀ kv ∈ sharedEntries entries, kv.1.data.head? = some 's' := by
  intro kv hkv
  obtain ⟨cv, _, hsome⟩ := List.mem_filterMap.mp hkv
  by_cases h : cv.1 = "total"
  · rw [if_pos h] at hsome
    exact Option.noConfusion hsome
  · rw [if_neg h] at hsome
    injection hsome with h2
    rw [← h2]
    exact shared_append_head cv.1

theorem lookup_none_of_head {k : String} (hk : k.data.head? ≠ some 's') :
    ∀ l : PyRow, (∀ kv ∈ l, kv.1.data.head? = some 's') →
      List.lookup k l = Option.none := by
  intro l
  induction l with
  | nil => intro _; rfl
  | cons kv rest ih =>
    intro hl
    obtain ⟨k1, v1⟩ := kv
    have hne : (k == k1) = false := by
      refine beq_eq_false_iff_ne.mpr ?_
      intro he
      exact hk (he ▸ hl (k1, v1) (List.mem_cons_self _ rest))
    simp only [List.lookup, hne]
    exact ih fun kv hkv => hl kv (List.mem_cons_of_mem _ hkv)

theorem breakdownOf_keys (result : PyVal) (shared : PyRow)
    (h : breakdownOf result = Except.ok shared) :
    ∀ kv ∈ shared, kv.1.data.head? = some 's' := by
  simp only [breakdownOf] at h
  cases hsb : (if (pyGet result "score_breakdown" (PyVal.dict [])).truthy
      then pyGet result "score_breakdown" (PyVal.dict []) else PyVal.dict []) with
  | dict entries =>
    rw [hsb] at h
    injection h with h
    rw [← h]
    exact sharedEntries_keys entries
  | none => rw [hsb] at h; exact Except.noConfusion h
  | num q => rw [hsb] at h; exact Except.noConfusion h
  | obj f => rw [hsb] at h; exact Except.noConfusion h
  | pylist xs => rw [hsb] at h; exact Except.noConfusion h

/-- C2 counterexample: for the result `{}` (no fields at all, in
particular no configured and no realized length) the produced record is
exactly the fixed base row — the `length_utilization` key is omitted from
the record, not stored with a null value as the claim requires. -/
theorem length_utilization_key_omitted :
    results_to_records [PyVal.dict []] = Except.ok [baseRowOf (PyVal.dict []) 0] ∧
      List.lookup "length_utilization" (baseRowOf (PyVal.dict []) 0) = Option.none :=
  ⟨rfl, rfl⟩

/-- C2 (amended): the Record Normalizer computes the derived utilization
ratio (realized length divided by configured length) and stores it under
the `length_utilization` key exactly when both the configured and the
realized length are truthy (non-null and non-zero); in every other case —
including a configured or realized length of zero — the key is omitted
from the record altogether rather than being present with a null value. -/
theorem length_utilization_presence (result : PyVal) (row : PyRow)
    (h : resultToRow result = Except.ok row) :
    ((List.lookup "length_utilization" row).isSome ↔
        ((configValue (pyGet result "config") "conversation_length").truthy ∧
          (pyGet result "conversation_length").truthy)) ∧
      ∀ lc l : ℚ,
        configValue (pyGet result "config") "conversation_length" = PyVal.num lc →
        pyGet result "conversation_length" = PyVal.num l →
        lc ≠ 0 → l ≠ 0 →
        List.lookup "length_utilization" row = some (PyVal.num (l / lc)) := by
  obtain ⟨early, shared, tail, hE, hB, hU, rfl⟩ := (resultToRow_ok_iff result row).mp h
  have hrow : List.lookup "length_utilization"
      (baseRowOf result early ++ shared ++ tail) =
      List.lookup "length_utilization" tail := by
    rw [List.lookup_append, List.lookup_append, lu_base, Option.none_or,
      lookup_none_of_head (by decide) shared (breakdownOf_keys result shared hB),
      Option.none_or]
  have h1 : (List.lookup "conversation_length_cfg"
      (baseRowOf result early ++ shared)).getD PyVal.none =
      configValue (pyGet result "config") "conversation_length" := by
    rw [List.lookup_append, clcfg_base]; rfl
  have h2 : (List.lookup "conversation_length"
      (baseRowOf result early ++ shared)).getD PyVal.none =
      pyGet result "conversation_length" := by
    rw [List.lookup_append, cl_base]; rfl
  simp only [utilTail] at hU
  rw [h1, h2] at hU
  rw [hrow]
  by_cases htr : ((configValue (pyGet result "config") "conversation_length").truthy &&
      (pyGet result "conversation_length").truthy) = true
  · rw [if_pos htr] at hU
    cases hn : pyFloat (pyGet result "conversation_length") with
    | error e => rw [hn] at hU; exact Except.noConfusion hU
    | ok n =>
      rw [hn] at hU
      cases hd : pyFloat (configValue (pyGet result "config") "conversation_length") with
      | error e => rw [hd] at hU; exact Except.noConfusion hU
      | ok d =>
        rw [hd] at hU
        injection hU with hU
        constructor
        · rw [← hU]
          simp only [List.lookup, beq_self_eq_true]
          exact iff_of_true (by simp) ⟨(Bool.and_eq_true _ _ ▸ htr).1,
            (Bool.and_eq_true _ _ ▸ htr).2⟩
        · intro lc l hlc hl hlc0 hl0
          rw [hl] at hn
          rw [hlc] at hd
          rw [show pyFloat (PyVal.num l) = Except.ok l from rfl] at hn
          rw [show pyFloat (PyVal.num lc) = Except.ok lc from rfl] at hd
          injection hn with hn
          injection hd with hd
          rw [← hU, hlc]
          have htru : (PyVal.num lc).truthy = true := by simp [PyVal.truthy, hlc0]
          simp only [List.lookup, beq_self_eq_true, htru, if_pos]
          rw [← hn, ← hd]
  · rw [if_neg htr] at hU
    injection hU with hU
    constructor
    · rw [← hU]
      refine iff_of_false (by simp) ?_
      intro hab
      exact htr (by simp [hab.1, hab.2])
    · intro lc l hlc hl hlc0 hl0
      exfalso
      apply htr
      rw [hlc, hl]
      simp [PyVal.truthy, hlc0, hl0]

theorem length_utilization_presence_witness :
    ∃ row, resultToRow (PyVal.dict [("config",
        PyVal.dict [("conversation_length", PyVal.num 10)]),
        ("conversation_length", PyVal.num 8)]) = Except.ok row ∧
      List.lookup "length_utilization" row = some (PyVal.num (8 / 10)) := by
  obtain ⟨row, hrow⟩ : ∃ row, resultToRow (PyVal.dict [("config",
      PyVal.dict [("conversation_length", PyVal.num 10)]),
      ("conversation_length", PyVal.num 8)]) = Except.ok row := ⟨_, rfl⟩
  exact ⟨row, hrow, (length_utilization_presence _ row hrow).2 10 8 rfl rfl
    (by norm_num) (by norm_num)⟩

/-- The fixed outcome fields of the flat record other than
`early_termination`: row key paired with the result attribute it reads
(statistics.py lines 81-92). -/
def outcomeFields : List (String × String) :=
  [("total_score", "total_score"),
   ("player10_score", "player10_total_mean"),
   ("player10_individual", "player10_individual_mean"),
   ("player10_rank", "player10_rank_mean"),
   ("player10_gap_to_best", "player10_gap_to_best"),
   ("player10_instances", "player10_instances"),
   ("best_total_score", "best_total_score"),
   ("conversation_length", "conversation_length"),
   ("pause_count", "pause_count"),
   ("unique_items_used", "unique_items_used"),
   ("execution_time", "execution_time")]

/-- C10: every record produced by the normalizer carries
`early_termination` as a number, equal to `0.0` whenever the input lacks
the field, while every other outcome field is null in the record whenever
its attribute is absent from the input. -/
theorem early_termination_always_float (result : PyVal) (row : PyRow)
    (h : resultToRow result = Except.ok row) :
    (∃ q : ℚ, List.lookup "early_termination" row = some (PyVal.num q) ∧
        (pyGet result "early_termination" PyVal.none = PyVal.none → q = 0)) ∧
      ∀ p ∈ outcomeFields, pyGet result p.2 PyVal.none = PyVal.none →
        List.lookup p.1 row = some PyVal.none := by
  obtain ⟨early, shared, tail, hE, hB, hU, rfl⟩ := (resultToRow_ok_iff result row).mp h
  constructor
  · refine ⟨early, rfl, ?_⟩
    intro habs
    cases result with
    | none => injection hE with h2; exact h2.symm
    | num q => injection hE with h2; exact h2.symm
    | pylist xs => injection hE with h2; exact h2.symm
    | dict e =>
      cases hl : List.lookup "early_termination" e with
      | none =>
        rw [show pyGet (PyVal.dict e) "early_termination" (PyVal.num 0) =
          (List.lookup "early_termination" e).getD (PyVal.num 0) from rfl, hl] at hE
        injection hE with h2
        exact h2.symm
      | some v =>
        rw [show pyGet (PyVal.dict e) "early_termination" PyVal.none =
          (List.lookup "early_termination" e).getD PyVal.none from rfl, hl] at habs
        rw [show pyGet (PyVal.dict e) "early_termination" (PyVal.num 0) =
          (List.lookup "early_termination" e).getD (PyVal.num 0) from rfl, hl] at hE
        rw [show (some v).getD PyVal.none = v from rfl] at habs
        rw [show (some v).getD (PyVal.num 0) = v from rfl, habs] at hE
        exact Except.noConfusion hE
    | obj f =>
      cases hl : List.lookup "early_termination" f with
      | none =>
        rw [show pyGet (PyVal.obj f) "early_termination" (PyVal.num 0) =
          (List.lookup "early_termination" f).getD (PyVal.num 0) from rfl, hl] at hE
        injection hE with h2
        exact h2.symm
      | some v =>
        rw [show pyGet (PyVal.obj f) "early_termination" PyVal.none =
          (List.lookup "early_termination" f).getD PyVal.none from rfl, hl] at habs
        rw [show pyGet (PyVal.obj f) "early_termination" (PyVal.num 0) =
          (List.lookup "early_termination" f).getD (PyVal.num 0) from rfl, hl] at hE
        rw [show (some v).getD PyVal.none = v from rfl] at habs
        rw [show (some v).getD (PyVal.num 0) = v from rfl, habs] at hE
        exact Except.noConfusion hE
  · intro p hp
    fin_cases hp <;> exact fun habs => congrArg some habs

theorem early_termination_always_float_witness :
    (∃ q : ℚ, List.lookup "early_termination"
          (baseRowOf (PyVal.obj []) 0 ++ sharedEntries [] ++ []) =
          some (PyVal.num q) ∧
        (pyGet (PyVal.obj []) "early_termination" PyVal.none = PyVal.none → q = 0)) ∧
      ∀ p ∈ outcomeFields, pyGet (PyVal.obj []) p.2 PyVal.none = PyVal.none →
        List.lookup p.1 (baseRowOf (PyVal.obj []) 0 ++ sharedEntries [] ++ []) =
          some PyVal.none :=
  early_termination_always_float (PyVal.obj []) _ rfl

/-- C8 counterexample: a result whose `early_termination` field is
present but `None` makes `float(None)` raise a `TypeError`, so
`results_to_records` does raise on a malformed input instead of degrading
to a null value. -/
theorem results_to_records_raises :
    results_to_records [PyVal.dict [("early_termination", PyVal.none)]] =
      Except.error "TypeError: float() argument must be a number" := rfl

theorem isNumOf {v : PyVal}
    (h : (match v with | PyVal.num _ => true | _ => false) = true) :
    ∃ q, v = PyVal.num q := by
  cases v with
  | num q => exact ⟨q, rfl⟩
  | none => exact Bool.noConfusion h
  | dict e => exact Bool.noConfusion h
  | obj f => exact Bool.noConfusion h
  | pylist xs => exact Bool.noConfusion h

theorem isDictOf {v : PyVal}
    (h : (match v with | PyVal.dict _ => true | _ => false) = true) :
    ∃ e, v = PyVal.dict e := by
  cases v with
  | dict e => exact ⟨e, rfl⟩
  | none => exact Bool.noConfusion h
  | num q => exact Bool.noConfusion h
  | obj f => exact Bool.noConfusion h
  | pylist xs => exact Bool.noConfusion h

/-- The benign-input condition under which the normalizer loop body
cannot raise: `early_termination` resolves to a number (the default `0.0`
included), the effective `score_breakdown` is a mapping, and whenever
both length fields are truthy they are numbers. -/
def benignResult (result : PyVal) : Bool :=
  (match pyGet result "early_termination" (PyVal.num 0) with
    | .num _ => true
    | _ => false) &&
  ((match (if (pyGet result "score_breakdown" (PyVal.dict [])).truthy
      then pyGet result "score_breakdown" (PyVal.dict []) else PyVal.dict []) with
    | .dict _ => true
    | _ => false) &&
  (!((configValue (pyGet result "config") "conversation_length").truthy &&
      (pyGet result "conversation_length").truthy) ||
    ((match pyGet result "conversation_length" with
        | .num _ => true
        | _ => false) &&
      (match configValue (pyGet result "config") "conversation_length" with
        | .num _ => true
        | _ => false))))

/-- A benign result flattens without an exception. -/
theorem resultToRow_ok_of_benign (result : PyVal)
    (h : benignResult result = true) :
    ∃ row, resultToRow result = Except.ok row := by
  unfold benignResult at h
  rw [Bool.and_eq_true, Bool.and_eq_true] at h
  obtain ⟨he, hsb, hlen⟩ := h
  obtain ⟨q, hq⟩ := isNumOf he
  obtain ⟨e, hsb2⟩ := isDictOf hsb
  have hE : pyFloat (pyGet result "early_termination" (PyVal.num 0)) =
      Except.ok q := by
    rw [hq]
    rfl
  have hB : breakdownOf result = Except.ok (sharedEntries e) := by
    simp only [breakdownOf]
    rw [hsb2]
  have hU : ∃ tail, utilTail (baseRowOf result q ++ sharedEntries e) =
      Except.ok tail := by
    simp only [utilTail]
    have h1 : (List.lookup "conversation_length_cfg"
        (baseRowOf result q ++ sharedEntries e)).getD PyVal.none =
        configValue (pyGet result "config") "conversation_length" := by
      rw [List.lookup_append, clcfg_base]; rfl
    have h2 : (List.lookup "conversation_length"
        (baseRowOf result q ++ sharedEntries e)).getD PyVal.none =
        pyGet result "conversation_length" := by
      rw [List.lookup_append, cl_base]; rfl
    rw [h1, h2]
    by_cases htr : ((configValue (pyGet result "config") "conversation_length").truthy &&
        (pyGet result "conversation_length").truthy) = true
    · rw [if_pos htr]
      rw [htr] at hlen
      simp only [Bool.not_true, Bool.false_or, Bool.and_eq_true] at hlen
      obtain ⟨l, hl⟩ := isNumOf hlen.1
      obtain ⟨lc, hlc⟩ := isNumOf hlen.2
      rw [hl, hlc]
      exact ⟨_, rfl⟩
    · rw [if_neg htr]
      exact ⟨[], rfl⟩
  obtain ⟨tail, hU⟩ := hU
  exact ⟨_, (resultToRow_ok_iff result _).mpr
    ⟨q, sharedEntries e, tail, hE, hB, hU, rfl⟩⟩

/-- C8 (amended): `results_to_records` never raises on inputs with
missing fields — extraction degrades to a null value.  But it is not
exception-free on arbitrary malformed inputs: a present non-numeric
`early_termination` or realized/configured length (when both are truthy)
raises a `TypeError` in `float(...)`, and a truthy non-mapping
`score_breakdown` raises an `AttributeError` at `.items()`.  On every
input avoiding those three conversion sites — in particular on any input
with arbitrarily missing fields, numeric or absent lengths, and a falsy
or mapping breakdown — the call succeeds. -/
theorem results_to_records_total (results : List PyVal)
    (h : ∀ r ∈ results, benignResult r = true) :
    ∃ recs, results_to_records results = Except.ok recs := by
  induction results with
  | nil => exact ⟨[], rfl⟩
  | cons r rest ih =>
    obtain ⟨row, hrow⟩ := resultToRow_ok_of_benign r (h r (List.mem_cons_self r rest))
    obtain ⟨recs, hrecs⟩ := ih fun x hx => h x (List.mem_cons_of_mem r hx)
    refine ⟨row :: recs, ?_⟩
    simp only [results_to_records, hrow, hrecs]

theorem results_to_records_total_witness :
    ∃ recs, results_to_records
        [PyVal.obj [("total_score", PyVal.num 3)], PyVal.dict []] =
      Except.ok recs :=
  results_to_records_total
    [PyVal.obj [("total_score", PyVal.num 3)], PyVal.dict []] (by decide)

/-- C7: each entry of `seed_stability_curves` is the expanding-mean curve
of a level's non-null metric values taken in ascending order of the order
column: the curve exists exactly for the levels with at least one valid
value (others are absent), its length is the level's count of non-null
metric values, position k is the mean of the first k + 1 valid values,
and the final element is the level's overall mean. -/
theorem seed_stability_curves_spec (df : List PyRow) (group_col metric order_col : String) :
    (∀ lvl curve, (lvl, curve) ∈ seed_stability_curves df group_col metric order_col ↔
        (lvl ∈ sortedDistinct (df.filterMap (numAt · group_col)) ∧
          stabilityVals df group_col lvl metric order_col ≠ [] ∧
          curve = expandingMeans (stabilityVals df group_col lvl metric order_col))) ∧
      ∀ lvl curve, (lvl, curve) ∈ seed_stability_curves df group_col metric order_col →
        curve.length = (stabilityVals df group_col lvl metric order_col).length ∧
        (∀ k, k < curve.length →
          curve.getD k 0 =
            qmean ((stabilityVals df group_col lvl metric order_col).take (k + 1))) ∧
        curve.getLast? = some (qmean (stabilityVals df group_col lvl metric order_col)) := by
  have hmem : ∀ lvl curve,
      (lvl, curve) ∈ seed_stability_curves df group_col metric order_col ↔
        (lvl ∈ sortedDistinct (df.filterMap (numAt · group_col)) ∧
          stabilityVals df group_col lvl metric order_col ≠ [] ∧
          curve = expandingMeans (stabilityVals df group_col lvl metric order_col)) := by
    intro lvl curve
    simp only [seed_stability_curves]
    rw [List.mem_filterMap]
    constructor
    · rintro ⟨l, hl, hF⟩
      by_cases hv : (stabilityVals df group_col l metric order_col).isEmpty
      · rw [if_pos hv] at hF
        exact Option.noConfusion hF
      · rw [if_neg hv] at hF
        injection hF with hF
        obtain ⟨rfl, rfl⟩ := Prod.mk.injEq .. ▸ hF
        exact ⟨hl, by simpa [List.isEmpty_iff] using hv, rfl⟩
    · rintro ⟨hl, hv, rfl⟩
      refine ⟨lvl, hl, ?_⟩
      rw [if_neg (by simpa [List.isEmpty_iff] using hv)]
  refine ⟨hmem, ?_⟩
  intro lvl curve hcurve
  obtain ⟨_, hv, rfl⟩ := (hmem lvl curve).mp hcurve
  refine ⟨expandingMeans_length _, ?_, expandingMeans_getLast _ hv⟩
  intro k hk
  rw [expandingMeans_length] at hk
  exact expandingMeans_getD _ k hk

/-- A concrete frame for the stability-curve claim: level 1 has valid
metric values 10 (order 1) and 30 (order 3) plus a null metric at order
2; level 2 has the single value 5. -/
def stabilityDF : List PyRow :=
  [[("g", PyVal.num 1), ("m", PyVal.num 30), ("s", PyVal.num 3)],
   [("g", PyVal.num 1), ("m", PyVal.num 10), ("s", PyVal.num 1)],
   [("g", PyVal.num 1), ("s", PyVal.num 2)],
   [("g", PyVal.num 2), ("m", PyVal.num 5), ("s", PyVal.num 1)]]

theorem seed_stability_curves_spec_witness :
    ([10, 20] : List ℚ).length = (stabilityVals stabilityDF "g" 1 "m" "s").length ∧
      (∀ k, k < ([10, 20] : List ℚ).length →
        ([10, 20] : List ℚ).getD k 0 =
          qmean ((stabilityVals stabilityDF "g" 1 "m" "s").take (k + 1))) ∧
      ([10, 20] : List ℚ).getLast? = some (qmean (stabilityVals stabilityDF "g" 1 "m" "s")) :=
  (seed_stability_curves_spec stabilityDF "g" "m" "s").2 1 [10, 20]
    ((seed_stability_curves_spec stabilityDF "g" "m" "s").1 1 [10, 20] |>.mpr
      ⟨by decide, by decide, by
        rw [show stabilityVals stabilityDF "g" 1 "m" "s" = [10, 30] from by decide]
        norm_num [expandingMeans, qmean, List.range, List.range.loop]⟩)

/-- The 4-tuple key of an emitted Pareto point. -/
def pkey (p : ParetoPoint) : List ℚ := [p.altruism, p.tau, p.fresh, p.mono]

/-- A point built for key `k` carries `k` as its own key. -/
theorem mkParetoPoint_key (results : List PyVal) :
    ∀ k p, mkParetoPoint results k = some p → pkey p = k := by
  intro k p h
  match k with
  | [] => exact Option.noConfusion h
  | [a] => exact Option.noConfusion h
  | [a, b] => exact Option.noConfusion h
  | [a, b, c] => exact Option.noConfusion h
  | a :: b :: c :: d :: e :: rest => exact Option.noConfusion h
  | [a, b, c, d] =>
    simp only [mkParetoPoint] at h
    by_cases he : ((ppVals results [a, b, c, d] "total_score").isEmpty ||
        (ppVals results [a, b, c, d] "player10_individual_mean").isEmpty) = true
    · rw [if_pos he] at h
      exact Option.noConfusion h
    · rw [if_neg he] at h
      injection h with h
      rw [← h]
      rfl

/-- The content of an emitted point: per-metric means with independent
null-skipping, optional early-termination coverage, and the emission
preconditions. -/
theorem mkParetoPoint_fields (results : List PyVal) (k : List ℚ) (p : ParetoPoint)
    (h : mkParetoPoint results k = some p) :
    p.total = qmean (ppVals results k "total_score") ∧
      p.player10 = qmean (ppVals results k "player10_individual_mean") ∧
      p.runs = (ppVals results k "total_score").length ∧
      (ppVals results k "early_termination" = [] → p.early = Option.none) ∧
      (ppVals results k "early_termination" ≠ [] →
        p.early = some (qmean (ppVals results k "early_termination"))) ∧
      ppVals results k "total_score" ≠ [] ∧
      ppVals results k "player10_individual_mean" ≠ [] := by
  match k with
  | [] => exact Option.noConfusion h
  | [a] => exact Option.noConfusion h
  | [a, b] => exact Option.noConfusion h
  | [a, b, c] => exact Option.noConfusion h
  | a :: b :: c :: d :: e :: rest => exact Option.noConfusion h
  | [a, b, c, d] =>
    simp only [mkParetoPoint] at h
    by_cases he : ((ppVals results [a, b, c, d] "total_score").isEmpty ||
        (ppVals results [a, b, c, d] "player10_individual_mean").isEmpty) = true
    · rw [if_pos he] at h
      exact Option.noConfusion h
    · rw [if_neg he] at h
      injection h with h
      rw [← h]
      simp only [Bool.or_eq_true, List.isEmpty_iff, not_or] at he
      refine ⟨rfl, rfl, rfl, ?_, ?_, he.1, he.2⟩
      · intro h0
        simp [h0]
      · intro h0
        simp [h0]

theorem mkParetoPoint_isSome (results : List PyVal) (a b c d : ℚ)
    (ht : ppVals results [a, b, c, d] "total_score" ≠ [])
    (hp : ppVals results [a, b, c, d] "player10_individual_mean" ≠ []) :
    ∃ p, mkParetoPoint results [a, b, c, d] = some p := by
  simp only [mkParetoPoint]
  rw [if_neg (by simp [List.isEmpty_iff, ht, hp])]
  exact ⟨_, rfl⟩

/-- Every key the grouping produces is a 4-tuple. -/
theorem ppKey_shape (result : PyVal) (k : List ℚ) (h : ppKey result = some k) :
    ∃ a b c d, k = [a, b, c, d] := by
  simp only [ppKey, ppKeyAttrs, List.mapM_cons, List.mapM_nil, Option.pure_def,
    Option.bind_eq_bind, Option.bind_eq_some, Option.some.injEq] at h
  obtain ⟨q1, h1, t1, ⟨q2, h2, t2, ⟨q3, h3, t3, ⟨q4, h4, t4, ht4, ht3⟩, ht2⟩, ht1⟩, hk⟩ := h
  refine ⟨q1, q2, q3, q4, ?_⟩
  rw [← hk, ← ht1, ← ht2, ← ht3, ← ht4]

/-- C6: `pareto_points` groups records by the 4-tuple
(altruism_prob, tau_margin, epsilon_fresh, epsilon_mono), dropping any
record with a null key component; a point exists for a key exactly when
the key has at least one non-null collective observation and at least one
non-null individual observation; each point carries the independent means
(the early-termination mean being null exactly on zero coverage); and the
output is strictly ascending in the lexicographic order of the keys. -/
theorem pareto_points_spec (results : List PyVal) :
    ((pareto_points results).Pairwise fun p q => keyLe (pkey p) (pkey q) ∧ pkey p ≠ pkey q) ∧
      (∀ k : List ℚ, (∃ p ∈ pareto_points results, pkey p = k) ↔
        (k ∈ results.filterMap ppKey ∧
          ppVals results k "total_score" ≠ [] ∧
          ppVals results k "player10_individual_mean" ≠ [])) ∧
      ∀ p ∈ pareto_points results,
        p.total = qmean (ppVals results (pkey p) "total_score") ∧
        p.player10 = qmean (ppVals results (pkey p) "player10_individual_mean") ∧
        p.runs = (ppVals results (pkey p) "total_score").length ∧
        (p.early = Option.none ↔ ppVals results (pkey p) "early_termination" = []) ∧
        (ppVals results (pkey p) "early_termination" ≠ [] →
          p.early = some (qmean (ppVals results (pkey p) "early_termination"))) := by
  refine ⟨?_, ?_, ?_⟩
  · exact pairwise_filterMap_key _ _ pkey (mkParetoPoint_key results) _
      (sortedDistinctKeys_strict _)
  · intro k
    constructor
    · rintro ⟨p, hp, rfl⟩
      obtain ⟨k2, hk2, hF⟩ := List.mem_filterMap.mp hp
      obtain rfl := mkParetoPoint_key results k2 p hF
      have hfields := mkParetoPoint_fields results (pkey p) p hF
      exact ⟨mem_sortedDistinctKeys.mp hk2, hfields.2.2.2.2.2.1, hfields.2.2.2.2.2.2⟩
    · rintro ⟨hk, ht, hp10⟩
      obtain ⟨res, hres, hkey⟩ := List.mem_filterMap.mp hk
      obtain ⟨a, b, c, d, rfl⟩ := ppKey_shape res k hkey
      obtain ⟨p, hP⟩ := mkParetoPoint_isSome results a b c d ht hp10
      exact ⟨p, List.mem_filterMap.mpr ⟨_, mem_sortedDistinctKeys.mpr hk, hP⟩,
        mkParetoPoint_key results _ p hP⟩
  · intro p hp
    obtain ⟨k2, hk2, hF⟩ := List.mem_filterMap.mp hp
    obtain rfl := mkParetoPoint_key results k2 p hF
    have hfields := mkParetoPoint_fields results (pkey p) p hF
    refine ⟨hfields.1, hfields.2.1, hfields.2.2.1, ?_, hfields.2.2.2.2.1⟩
    constructor
    · intro h0
      by_contra hne
      rw [hfields.2.2.2.2.1 hne] at h0
      exact Option.noConfusion h0
    · exact hfields.2.2.2.1

/-- A single-record input for instantiating the Pareto claim. -/
def paretoResults : List PyVal :=
  [PyVal.obj [("config", PyVal.obj [("altruism_prob", PyVal.num 1),
      ("tau_margin", PyVal.num 2), ("epsilon_fresh", PyVal.num 3),
      ("epsilon_mono", PyVal.num 4)]),
    ("total_score", PyVal.num 10), ("player10_individual_mean", PyVal.num 5)]]

theorem pareto_points_spec_witness :
    ∃ p ∈ pareto_points paretoResults,
      pkey p = [1, 2, 3, 4] ∧
        p.total = qmean (ppVals paretoResults [1, 2, 3, 4] "total_score") ∧
        p.runs = (ppVals paretoResults [1, 2, 3, 4] "total_score").length := by
  obtain ⟨p, hp, hk⟩ := ((pareto_points_spec paretoResults).2.1 [1, 2, 3, 4]).mpr
    ⟨by decide, by decide, by decide⟩
  have h3 := (pareto_points_spec paretoResults).2.2 p hp
  rw [hk] at h3
  exact ⟨p, hp, hk, h3.1, h3.2.2.1⟩

/-- A pair contributes a row exactly when both levels have a non-null
observation (the two `continue`s of lines 205 and 209). -/
theorem mkContrast_eq_some (df : List PyRow) (group_col metric : String)
    (a b : ℚ) (row : DeltaRow) :
    mkContrast df group_col metric (a, b) = some row ↔
      (levelVals df group_col a metric ≠ [] ∧
        levelVals df group_col b metric ≠ [] ∧
        row = mkDeltaRow a b (levelVals df group_col a metric)
          (levelVals df group_col b metric)) := by
  simp only [mkContrast]
  by_cases he : ((levelVals df group_col a metric).isEmpty ||
      (levelVals df group_col b metric).isEmpty) = true
  · rw [if_pos he]
    simp only [Bool.or_eq_true, List.isEmpty_iff] at he
    constructor
    · intro h; exact Option.noConfusion h
    · rintro ⟨hx, hy, _⟩
      rcases he with he | he
      · exact absurd he hx
      · exact absurd he hy
  · rw [if_neg he]
    simp only [Bool.or_eq_true, List.isEmpty_iff, not_or] at he
    constructor
    · intro h
      injection h with h
      exact ⟨he.1, he.2, h.symm⟩
    · rintro ⟨_, _, rfl⟩
      rfl

/-- Line 215 with both variances defined: `d = delta / pooled` when
`pooled > 0`, `NaN` when the pooled standard deviation is zero. -/
theorem cohensD_defined (delta : ℚ) (x y : List ℚ) (vx vy : ℚ)
    (hx : svar x = some vx) (hy : svar y = some vy) :
    (0 < (vx * ((x.length : ℚ) - 1) + vy * ((y.length : ℚ) - 1)) /
        ((x.length : ℚ) + (y.length : ℚ) - 2) →
      cohensD delta x y = some (delta,
        (vx * ((x.length : ℚ) - 1) + vy * ((y.length : ℚ) - 1)) /
          ((x.length : ℚ) + (y.length : ℚ) - 2))) ∧
      ((vx * ((x.length : ℚ) - 1) + vy * ((y.length : ℚ) - 1)) /
          ((x.length : ℚ) + (y.length : ℚ) - 2) = 0 →
        cohensD delta x y = Option.none) := by
  simp only [cohensD, pooledSq, hx, hy]
  constructor
  · intro hpos
    rw [if_pos hpos]
  · intro h0
    rw [h0]
    rw [if_neg (lt_irrefl 0)]

/-- When either group has a single observation its `var(ddof=1)` is
`NaN`, which poisons the pooled expression, and `NaN > 0` is false, so
line 215 yields `NaN`. -/
theorem cohensD_nan (delta : ℚ) (x y : List ℚ)
    (h : svar x = Option.none ∨ svar y = Option.none) :
    cohensD delta x y = Option.none := by
  rcases h with h | h
  · simp only [cohensD, pooledSq, h]
  · simp only [cohensD, pooledSq, h]
    cases svar x <;> rfl

/-- C3: `pairwise_deltas` emits one row per unordered pair (A, B) of
sorted distinct non-null levels with A preceding B where both levels have
at least one non-null metric value; each row carries
`delta_mean = mean(B) − mean(A)` and the sample counts, and Cohen's d —
represented as the pair (numerator, squared pooled standard deviation)
since the square root of a rational is irrational in general — follows
the Bessel-corrected pooled formula: when the pooled square is defined
and positive the value is `delta / sqrt(pooled²)`, when it is zero the
result is the `NaN` of line 215 (never zero), and when either sample
variance is undefined (a single observation, pandas `NaN`) the result is
`NaN` as well; no case raises. -/
theorem pairwise_deltas_spec (df : List PyRow) (group_col metric : String) :
    (∀ a b : ℚ,
      (∃ row ∈ pairwise_deltas df group_col metric, row.a = a ∧ row.b = b) ↔
        (a ∈ sortedDistinct (df.filterMap (numAt · group_col)) ∧
          b ∈ sortedDistinct (df.filterMap (numAt · group_col)) ∧ a < b ∧
          levelVals df group_col a metric ≠ [] ∧
          levelVals df group_col b metric ≠ [])) ∧
      ∀ row ∈ pairwise_deltas df group_col metric,
        row.delta_mean = qmean (levelVals df group_col row.b metric) -
            qmean (levelVals df group_col row.a metric) ∧
        row.n_a = (levelVals df group_col row.a metric).length ∧
        row.n_b = (levelVals df group_col row.b metric).length ∧
        (∀ vx vy : ℚ, svar (levelVals df group_col row.a metric) = some vx →
          svar (levelVals df group_col row.b metric) = some vy →
          (0 < (vx * ((row.n_a : ℚ) - 1) + vy * ((row.n_b : ℚ) - 1)) /
              ((row.n_a : ℚ) + (row.n_b : ℚ) - 2) →
            row.cohens_d = some (row.delta_mean,
              (vx * ((row.n_a : ℚ) - 1) + vy * ((row.n_b : ℚ) - 1)) /
                ((row.n_a : ℚ) + (row.n_b : ℚ) - 2))) ∧
          ((vx * ((row.n_a : ℚ) - 1) + vy * ((row.n_b : ℚ) - 1)) /
              ((row.n_a : ℚ) + (row.n_b : ℚ) - 2) = 0 →
            row.cohens_d = Option.none)) ∧
        ((svar (levelVals df group_col row.a metric) = Option.none ∨
            svar (levelVals df group_col row.b metric) = Option.none) →
          row.cohens_d = Option.none) := by
  constructor
  · intro a b
    constructor
    · rintro ⟨row, hrow, ha, hb⟩
      obtain ⟨ab, hab, hG⟩ := List.mem_filterMap.mp hrow
      obtain ⟨p, q⟩ := ab
      obtain ⟨hx, hy, rfl⟩ := (mkContrast_eq_some df group_col metric p q row).mp hG
      obtain rfl : p = a := ha
      obtain rfl : q = b := hb
      obtain ⟨haL, hbL, hlt⟩ := (mem_levelPairs (sortedDistinct_sorted _)).mp hab
      exact ⟨haL, hbL, hlt, hx, hy⟩
    · rintro ⟨haL, hbL, hlt, hx, hy⟩
      refine ⟨mkDeltaRow a b (levelVals df group_col a metric)
        (levelVals df group_col b metric), ?_, rfl, rfl⟩
      exact List.mem_filterMap.mpr ⟨(a, b),
        (mem_levelPairs (sortedDistinct_sorted _)).mpr ⟨haL, hbL, hlt⟩,
        (mkContrast_eq_some df group_col metric a b _).mpr ⟨hx, hy, rfl⟩⟩
  · intro row hrow
    obtain ⟨ab, hab, hG⟩ := List.mem_filterMap.mp hrow
    obtain ⟨p, q⟩ := ab
    obtain ⟨hx, hy, rfl⟩ := (mkContrast_eq_some df group_col metric p q row).mp hG
    refine ⟨rfl, rfl, rfl, ?_, ?_⟩
    · intro vx vy hvx hvy
      exact cohensD_defined _ _ _ vx vy hvx hvy
    · intro h
      exact cohensD_nan _ _ _ h

theorem pairwise_deltas_spec_witness :
    ∃ row ∈ pairwise_deltas sampleDF "g" "m",
      row.a = 1 ∧ row.b = 2 ∧
        row.delta_mean = qmean (levelVals sampleDF "g" 2 "m") -
          qmean (levelVals sampleDF "g" 1 "m") ∧
        row.n_a = (levelVals sampleDF "g" 1 "m").length ∧
        row.n_b = (levelVals sampleDF "g" 2 "m").length := by
  obtain ⟨row, hrow, ha, hb⟩ := ((pairwise_deltas_spec sampleDF "g" "m").1 1 2).mpr
    ⟨by decide, by decide, by norm_num, by decide, by decide⟩
  have hf := (pairwise_deltas_spec sampleDF "g" "m").2 row hrow
  rw [ha, hb] at hf
  exact ⟨row, hrow, ha, hb, hf.1, hf.2.1, hf.2.2.1⟩

/-- Distributing a sum over a pointwise addition. -/
theorem sum_map_add {β : Type} (L : List β) (g h : β → ℕ) :
    (L.map fun b => g b + h b).sum = (L.map g).sum + (L.map h).sum := by
  induction L with
  | nil => rfl
  | cons x rest ih =>
    simp only [List.map_cons, List.sum_cons, ih]
    omega

theorem sum_ind_zero {β : Type} [DecidableEq β] (v : β) :
    ∀ L : List β, v ∉ L → (L.map fun b => if v = b then (1 : ℕ) else 0).sum = 0 := by
  intro L
  induction L with
  | nil => intro _; rfl
  | cons x rest ih =>
    intro hv
    simp only [List.map_cons, List.sum_cons]
    have hne : v ≠ x := by
      intro he
      subst he
      exact hv (List.mem_cons_self v rest)
    rw [if_neg hne, ih fun hm => hv (List.mem_cons_of_mem x hm)]

/-- Over a duplicate-free list containing `v`, the indicator of `v` sums
to one. -/
theorem sum_ind_one {β : Type} [DecidableEq β] (v : β) :
    ∀ L : List β, L.Nodup → v ∈ L →
      (L.map fun b => if v = b then (1 : ℕ) else 0).sum = 1 := by
  intro L
  induction L with
  | nil => intro _ hv; exact absurd hv (List.not_mem_nil v)
  | cons x rest ih =>
    intro hnd hv
    rw [List.nodup_cons] at hnd
    simp only [List.map_cons, List.sum_cons]
    rcases List.mem_cons.mp hv with rfl | hv2
    · rw [if_pos rfl, sum_ind_zero v rest hnd.1]
    · have hne : v ≠ x := by
        intro he
        subst he
        exact hnd.1 hv2
      rw [if_neg hne, ih hnd.2 hv2]

/-- The grid partition count: over duplicate-free row and column value
lists covering every contributing record's coordinates, the total size of
all cell buckets equals the number of contributing records — each record
with non-null row, column and metric lands in exactly one cell, and no
other record lands anywhere. -/
theorem heat_partition (ra ca m : String) (rows cols : List ℚ)
    (hrnd : rows.Nodup) (hcnd : cols.Nodup) :
    ∀ results : List PyVal,
      (∀ res ∈ results, ∀ r c, hmRow res ra = some r → hmCol res ca = some c →
        (hmMetric res m).isSome = true → r ∈ rows ∧ c ∈ cols) →
      (rows.map fun r => (cols.map fun c =>
          (hmBucket results ra ca m r c).length).sum).sum =
        (results.filter fun res => hmValid res ra ca m).length := by
  intro results
  induction results with
  | nil =>
    intro _
    simp [hmBucket]
  | cons res rest ih =>
    intro hmem
    have hrest := ih fun x hx => hmem x (List.mem_cons_of_mem _ hx)
    by_cases hval : hmValid res ra ca m = true
    · have hval2 := hval
      rw [hmValid, Bool.and_eq_true, Bool.and_eq_true] at hval2
      obtain ⟨⟨hr, hc⟩, hm2⟩ := hval2
      obtain ⟨r0, hr0⟩ := Option.isSome_iff_exists.mp hr
      obtain ⟨c0, hc0⟩ := Option.isSome_iff_exists.mp hc
      obtain ⟨v, hv⟩ := Option.isSome_iff_exists.mp hm2
      obtain ⟨hr0m, hc0m⟩ := hmem res (List.mem_cons_self res rest) r0 c0 hr0 hc0 hm2
      have hlen : ∀ r c, (hmBucket (res :: rest) ra ca m r c).length =
          (if r0 = r ∧ c0 = c then 1 else 0) + (hmBucket rest ra ca m r c).length := by
        intro r c
        rw [hmBucket, hmBucket, List.filterMap_cons]
        by_cases hrc : r0 = r ∧ c0 = c
        · have hsome : (if hmRow res ra = some r ∧ hmCol res ca = some c
              then hmMetric res m else Option.none) = some v := by
            rw [if_pos ⟨by rw [hr0, hrc.1], by rw [hc0, hrc.2]⟩, hv]
          rw [hsome, if_pos hrc]
          simp [Nat.add_comm]
        · have hnone : (if hmRow res ra = some r ∧ hmCol res ca = some c
              then hmMetric res m else Option.none) = Option.none := by
            rw [if_neg]
            intro hand
            apply hrc
            rw [hr0] at hand
            rw [hc0] at hand
            exact ⟨Option.some.injEq .. ▸ hand.1, Option.some.injEq .. ▸ hand.2⟩
          rw [hnone, if_neg hrc]
          simp
      have hinner : ∀ r, (cols.map fun c =>
          (if r0 = r ∧ c0 = c then 1 else 0)).sum = if r0 = r then 1 else 0 := by
        intro r
        by_cases hr2 : r0 = r
        · rw [if_pos hr2]
          have : (cols.map fun c => if r0 = r ∧ c0 = c then 1 else 0) =
              cols.map fun c => if c0 = c then 1 else 0 := by
            apply List.map_congr_left
            intro c _
            by_cases hcc : c0 = c
            · rw [if_pos ⟨hr2, hcc⟩, if_pos hcc]
            · rw [if_neg (fun hand => hcc hand.2), if_neg hcc]
          rw [this, sum_ind_one c0 cols hcnd hc0m]
        · rw [if_neg hr2]
          have : (cols.map fun c => if r0 = r ∧ c0 = c then 1 else 0) =
              cols.map fun _ => 0 := by
            apply List.map_congr_left
            intro c _
            rw [if_neg (fun hand => hr2 hand.1)]
          rw [this]
          simp
      simp only [hlen, sum_map_add, hinner]
      rw [sum_ind_one r0 rows hrnd hr0m, hrest]
      simp only [List.filter_cons, hval, if_true, List.length_cons]
      omega
    · have hnone : ∀ r c, (if hmRow res ra = some r ∧ hmCol res ca = some c
          then hmMetric res m else Option.none) = Option.none := by
        intro r c
        by_cases hrc : hmRow res ra = some r ∧ hmCol res ca = some c
        · rw [if_pos hrc]
          cases hmv : hmMetric res m with
          | none => rfl
          | some v =>
            exfalso
            apply hval
            rw [hmValid, hrc.1, hrc.2, hmv]
            rfl
        · rw [if_neg hrc]
      have hbeq : ∀ r c, hmBucket (res :: rest) ra ca m r c =
          hmBucket rest ra ca m r c := by
        intro r c
        rw [hmBucket, hmBucket, List.filterMap_cons, hnone]
      simp only [hbeq]
      rw [hrest, List.filter_cons, if_neg (by simpa using hval)]

theorem getD_map_lt {α β : Type} (f : α → β) (l : List α) (i : Nat) (d : β) (d0 : α)
    (hi : i < l.length) : (l.map f).getD i d = f (l.getD i d0) := by
  rw [List.getD_eq_getElem?_getD, List.getElem?_map, List.getD_eq_getElem?_getD,
    List.getElem?_eq_getElem hi]
  rfl

/-- C4: whenever `heatmap_matrix` returns a grid, the row and column
headers are the strictly sorted distinct coordinate values of the
contributing records, the grid is rectangular (row-major, one row per
header value, one cell per column value), every cell is the arithmetic
mean of the metric over exactly the records whose coordinates match that
cell (`hmBucket` is by definition that exact record list) and is null —
never zero, never omitted — when no record contributes, and the bucket
sizes over the whole grid add up to the number of contributing records,
so no record is double-counted or dropped. -/
theorem heatmap_matrix_spec (results : List PyVal) (row_attr col_attr metric : String)
    (rows cols : List ℚ) (grid : List (List (Option ℚ)))
    (h : heatmap_matrix results row_attr col_attr metric = some (rows, cols, grid)) :
    rows.Sorted (· < ·) ∧ cols.Sorted (· < ·) ∧
      (∀ r : ℚ, r ∈ rows ↔ ∃ res ∈ results,
        hmValid res row_attr col_attr metric = true ∧ hmRow res row_attr = some r) ∧
      (∀ c : ℚ, c ∈ cols ↔ ∃ res ∈ results,
        hmValid res row_attr col_attr metric = true ∧ hmCol res col_attr = some c) ∧
      grid.length = rows.length ∧
      (∀ gr ∈ grid, gr.length = cols.length) ∧
      (∀ i j, i < rows.length → j < cols.length →
        (grid.getD i []).getD j Option.none =
          (if hmBucket results row_attr col_attr metric (rows.getD i 0) (cols.getD j 0) = []
            then Option.none
            else some (qmean (hmBucket results row_attr col_attr metric
              (rows.getD i 0) (cols.getD j 0))))) ∧
      (rows.map fun r => (cols.map fun c =>
          (hmBucket results row_attr col_attr metric r c).length).sum).sum =
        (results.filter fun res => hmValid res row_attr col_attr metric).length := by
  simp only [heatmap_matrix] at h
  by_cases hv : (results.filter fun r =>
      hmValid r row_attr col_attr metric).isEmpty = true
  · rw [if_pos hv] at h
    exact Option.noConfusion h
  · rw [if_neg hv] at h
    injection h with h
    rw [Prod.mk.injEq, Prod.mk.injEq] at h
    obtain ⟨hrows, hcols, hgrid⟩ := h
    subst hrows
    subst hcols
    subst hgrid
    have hmemr : ∀ r : ℚ, r ∈ sortedDistinct ((results.filter fun res =>
        hmValid res row_attr col_attr metric).filterMap fun res =>
          hmRow res row_attr) ↔
        ∃ res ∈ results, hmValid res row_attr col_attr metric = true ∧
          hmRow res row_attr = some r := by
      intro r
      rw [mem_sortedDistinct, List.mem_filterMap]
      constructor
      · rintro ⟨res, hres, hr⟩
        obtain ⟨hres2, hval2⟩ := List.mem_filter.mp hres
        exact ⟨res, hres2, hval2, hr⟩
      · rintro ⟨res, hres, hval2, hr⟩
        exact ⟨res, List.mem_filter.mpr ⟨hres, hval2⟩, hr⟩
    have hmemc : ∀ c : ℚ, c ∈ sortedDistinct ((results.filter fun res =>
        hmValid res row_attr col_attr metric).filterMap fun res =>
          hmCol res col_attr) ↔
        ∃ res ∈ results, hmValid res row_attr col_attr metric = true ∧
          hmCol res col_attr = some c := by
      intro c
      rw [mem_sortedDistinct, List.mem_filterMap]
      constructor
      · rintro ⟨res, hres, hr⟩
        obtain ⟨hres2, hval2⟩ := List.mem_filter.mp hres
        exact ⟨res, hres2, hval2, hr⟩
      · rintro ⟨res, hres, hval2, hr⟩
        exact ⟨res, List.mem_filter.mpr ⟨hres, hval2⟩, hr⟩
    refine ⟨sortedDistinct_sorted _, sortedDistinct_sorted _, hmemr, hmemc,
      List.length_map .., ?_, ?_, ?_⟩
    · intro gr hgr
      obtain ⟨rv, _, hrv⟩ := List.mem_map.mp hgr
      rw [← hrv]
      exact List.length_map ..
    · intro i j hi hj
      rw [getD_map_lt _ _ i [] 0 hi, getD_map_lt _ _ j Option.none 0 hj]
      simp only [List.isEmpty_iff]
    · refine heat_partition row_attr col_attr metric _ _
        (sortedDistinct_nodup _) (sortedDistinct_nodup _) results ?_
      intro res hres r c hr hc hm2
      have hval2 : hmValid res row_attr col_attr metric = true := by
        rw [hmValid, hr, hc]
        simp [hm2]
      exact ⟨(hmemr r).mpr ⟨res, hres, hval2, hr⟩, (hmemc c).mpr ⟨res, hres, hval2, hc⟩⟩

def heatResults : List PyVal :=
  [PyVal.obj [("config", PyVal.obj [("rf", PyVal.num 1), ("cf", PyVal.num 10)]),
    ("m", PyVal.num 5)],
   PyVal.obj [("config", PyVal.obj [("rf", PyVal.num 2), ("cf", PyVal.num 10)]),
    ("m", PyVal.num 9)]]

theorem heatmap_matrix_spec_witness :
    ∃ rows cols grid,
      heatmap_matrix heatResults "rf" "cf" "m" = some (rows, cols, grid) ∧
        rows.Sorted (· < ·) ∧ grid.length = rows.length ∧
        (rows.map fun r => (cols.map fun c =>
            (hmBucket heatResults "rf" "cf" "m" r c).length).sum).sum =
          (heatResults.filter fun res => hmValid res "rf" "cf" "m").length := by
  refine ⟨_, _, _, rfl, ?_, ?_, ?_⟩
  · exact (heatmap_matrix_spec heatResults "rf" "cf" "m" _ _ _ rfl).1
  · exact (heatmap_matrix_spec heatResults "rf" "cf" "m" _ _ _ rfl).2.2.2.2.1
  · exact (heatmap_matrix_spec heatResults "rf" "cf" "m" _ _ _ rfl).2.2.2.2.2.2.2
